import Mathlib

/-!
Verification of the upload-http repository (Go): a shallow embedding of the
server (`pkg/server/server.go`), the client (`pkg/client/client.go`), and the
hash package (`pkg/hash`), with theorems settling the specification claims.

Paths are modelled as strings over '/'-separated segments, mirroring Go's
`path/filepath` lexical operations on Unix.
-/

namespace UploadHttp

/-! ## Path model: Go `filepath.Clean` and `filepath.Join` (Unix separator) -/

/-- Split a character list on `'/'`, keeping empty segments,
as Go's element scanning of a path does. -/
def splitSlash : List Char → List (List Char)
  | [] => [[]]
  | c :: rest =>
    let r := splitSlash rest
    if c = '/' then [] :: r
    else
      match r with
      | [] => [[c]]
      | s :: ss => (c :: s) :: ss

/-- One step of `filepath.Clean`'s element processing: the output stack is kept
in reverse order (head = most recently emitted element). Empty and `"."`
elements are dropped; `".."` pops a previous non-`".."` element, is dropped at
the root of a rooted path, and is kept otherwise; any other element is pushed.
Mirrors the loop of Go `path/filepath.Clean`. -/
def cleanPush (rooted : Bool) (stack : List (List Char)) (seg : List Char) :
    List (List Char) :=
  if seg = [] ∨ seg = ['.'] then stack
  else if seg = ['.', '.'] then
    match stack with
    | top :: rest => if top = ['.', '.'] then seg :: stack else rest
    | [] => if rooted then [] else [seg]
  else seg :: stack

/-- Join segments with `'/'`. -/
def joinSlash : List (List Char) → List Char
  | [] => []
  | [s] => s
  | s :: rest => s ++ '/' :: joinSlash rest

/-- Go `path/filepath.Clean` (Unix): lexical normalization of a path.
Returns `"."` for an empty result on a relative path and `"/"` at the root. -/
def goClean (p : String) : String :=
  let cs := p.toList
  let rooted := cs.head? = some '/'
  let segs := splitSlash cs
  let out := (segs.foldl (cleanPush rooted) []).reverse
  if rooted then String.mk ('/' :: joinSlash out)
  else if out = [] then "." else String.mk (joinSlash out)

/-- Go `path/filepath.Join` for two elements: empty elements are dropped, the
rest joined with `'/'` and the result cleaned; all-empty input yields `""`. -/
def goJoin (a b : String) : String :=
  if a = "" then if b = "" then "" else goClean b
  else if b = "" then goClean a
  else goClean (a ++ "/" ++ b)

/-- Go `strings.Contains s ".."`: does `".."` occur as a substring? -/
def containsDotDot : List Char → Bool
  | '.' :: '.' :: _ => true
  | _ :: rest => containsDotDot rest
  | [] => false

/-! ## Server path handling (`pkg/server/server.go`) -/

/-- The path sanitizer used by `handleDownload` (server.go:240-245) and
`handleList` (server.go:399-404): clean the raw path, reject it when the
cleaned form still contains `".."`, otherwise use the cleaned path.
`none` models the `"Invalid path"` HTTP 400 rejection. -/
def sanitize (rawPath : String) : Option String :=
  let cleanPath := goClean rawPath
  if containsDotDot cleanPath.toList then none else some cleanPath

/-- The upload-destination path computed by `processUploadedFile`
(server.go:196): `filepath.Join(s.config.StoragePath, fileHeader.Filename)`.
The server code itself adds no check here; `fileHeader.Filename` is the
value produced by `mime/multipart.Part.FileName`, which on the Go versions
this repository builds with (1.23.2+) has already been passed through
`filepath.Base`. -/
def uploadDestPath (storagePath filename : String) : String :=
  goJoin storagePath filename

/-- The tail of Go `path/filepath.Base`, on the reversed character list of a
path: discard the trailing separators, then keep the characters after the
last remaining separator. Empty result means the path was all separators. -/
def baseRev (cs : List Char) : List Char :=
  (cs.dropWhile (· = '/')).takeWhile (· ≠ '/')

/-- Go `path/filepath.Base` (Unix): `"."` for the empty path; otherwise strip
trailing separators, and return the last path element, or `"/"` when the
path consisted entirely of separators. -/
def goBase (p : String) : String :=
  if p = "" then "."
  else if baseRev p.toList.reverse = [] then "/"
  else String.mk (baseRev p.toList.reverse).reverse

/-- `mime/multipart.Part.FileName` (Go ≥ 1.17; this repository requires Go
1.23.2+): the Content-Disposition filename parameter passed through
`filepath.Base` — the RFC 7578 §4.2 directory-information mitigation —
or nothing when the parameter is empty. `ReadForm` records a `FileHeader`
(the only route into `processUploadedFile`) only when this is non-empty. -/
def partFileName (w : String) : Option String :=
  if w = "" then none else some (goBase w)

/-- Character-list prefix test. -/
def charPre : List Char → List Char → Bool
  | [], _ => true
  | _ :: _, [] => false
  | a :: as, b :: bs => a = b && charPre as bs

/-- Does the path contain a parent-directory `".."` segment? -/
def hasDotDotSegment (p : String) : Bool :=
  (splitSlash p.toList).any fun s => s = ['.', '.']

/-- The file `processUploadedFile` actually creates for a file part whose
wire filename parameter is `w`: the stdlib-normalized `Filename` joined
under the storage root (server.go:196), written via `os.Create`
(server.go:204), which fails with `EISDIR` — creating nothing — whenever the
destination is an existing directory (`isDir`), such as the storage root
itself or the working directory; `os.MkdirAll(destDir, ...)` (server.go:199)
only creates directories. `none` means no regular file is created. -/
def uploadWriteTarget (isDir : String → Bool) (storagePath w : String) :
    Option String :=
  match partFileName w with
  | none => none
  | some filename =>
    let destPath := uploadDestPath storagePath filename
    if isDir destPath then none else some destPath

/-! ## Hash package (`pkg/hash`)

The two digest algorithms (`crypto/md5`, `crypto/sha256`) are abstracted as
arbitrary functions from byte streams to hex strings: the claims concern the
verifier's control flow, which never depends on the digest values themselves.
A "reader" is modelled as the byte stream it yields; alongside each result we
record how many bytes of that stream were consumed, so "fails before reading
the stream" is expressible. -/

/-- `hash.FileHash`: algorithm tag plus hex-encoded digest value. -/
structure FileHash where
  algorithm : String
  value : String
deriving DecidableEq

/-- `hash.Hasher`: the configured algorithm tag. -/
structure Hasher where
  hashType : String
deriving DecidableEq

/-- `Hasher.HashReader` (hash.go): dispatch on the configured algorithm tag;
`"md5"` and `"sha256"` consume the whole stream via `io.Copy` and return the
digest, any other tag returns an unsupported-type error having read nothing.
`md5sum`/`sha256sum` stand for the two digest implementations. -/
def hashReader (md5sum sha256sum : List Nat → String) (h : Hasher)
    (stream : List Nat) : Except String FileHash × Nat :=
  if h.hashType = "md5" then
    (.ok { algorithm := "md5", value := md5sum stream }, stream.length)
  else if h.hashType = "sha256" then
    (.ok { algorithm := "sha256", value := sha256sum stream }, stream.length)
  else
    (.error ("unsupported hash type: " ++ h.hashType), 0)

/-- `Hasher.VerifyReader` (hash.go:315-326): if `expectedHash.Algorithm`
differs from the configured type, return `(false, mismatch error)` before any
read; otherwise hash the whole stream and compare digest values, returning the
boolean with no error. The result pairs Go's `(bool, error)` with the number
of stream bytes consumed. -/
def verifyReader (md5sum sha256sum : List Nat → String) (h : Hasher)
    (stream : List Nat) (expectedHash : FileHash) :
    (Bool × Option String) × Nat :=
  if expectedHash.algorithm ≠ h.hashType then
    ((false, some ("hash algorithm mismatch: expected " ++ expectedHash.algorithm
        ++ ", got " ++ h.hashType)), 0)
  else
    match hashReader md5sum sha256sum h stream with
    | (.error e, n) => ((false, some e), n)
    | (.ok actualHash, n) => ((actualHash.value = expectedHash.value, none), n)

/-! ## Client dispatcher (`pkg/client/client.go`, `UploadFolder`)

Each spawned task ends with one mutex-guarded critical section: on failure it
writes the shared error slot only if that slot is still empty and does not
touch the progress counters; on success it increments the processed-file
count and adds the file's size. A whole execution is modelled as the fold of
these critical sections in completion order, which the scheduler may choose
arbitrarily — theorems quantify over every order. -/

/-- Result of one per-file transfer: success with the file's byte size, or
failure with the error message recorded by the task. -/
inductive FileOutcome where
  | ok (size : Nat)
  | fail (err : String)
deriving DecidableEq

/-- The shared dispatcher state guarded by `mu`: `progress.ProcessedFiles`,
`progress.ProcessedSize`, and the `uploadErr` slot. -/
structure Agg where
  processedFiles : Nat
  processedSize : Nat
  uploadErr : Option String
deriving DecidableEq

/-- One task's critical section (client.go:99-132): a failing task writes the
error slot only when it is empty and returns without counting; a succeeding
task increments the counters. -/
def uploadTask (a : Agg) : FileOutcome → Agg
  | .fail e =>
    { a with uploadErr := if a.uploadErr = none then some e else a.uploadErr }
  | .ok size =>
    { a with processedFiles := a.processedFiles + 1,
             processedSize := a.processedSize + size }

/-- The aggregate state after every task has run, given the completion order
of the tasks. `wg.Wait()` guarantees all of them have run. -/
def runTasks (order : List FileOutcome) : Agg :=
  order.foldl uploadTask { processedFiles := 0, processedSize := 0, uploadErr := none }

/-- The error of the chronologically first failing task, if any. -/
def firstFailure : List FileOutcome → Option String
  | [] => none
  | .ok _ :: rest => firstFailure rest
  | .fail e :: _ => some e

/-- Whether a per-file transfer succeeded. -/
def FileOutcome.succeeded : FileOutcome → Bool
  | .ok _ => true
  | .fail _ => false

/-! ## Semaphore admission control (`UploadFolder`, client.go:82-94)

The dispatcher loop sends on a buffered channel `sem` of capacity `K` before
spawning each goroutine; the goroutine receives from `sem` (releasing the
slot) when it finishes, successfully or not. A state counts files not yet
admitted, goroutines currently holding a slot, and finished goroutines; the
channel send blocks whenever `K` slots are held, so admission is guarded by
`active < K`. Per-file transfer I/O happens only while the task holds its
slot. -/

/-- Dispatcher state: files not yet admitted through the semaphore, tasks
currently holding a slot (their transfer may be in flight), tasks finished. -/
structure DispatchState where
  pending : Nat
  active : Nat
  finished : Nat
deriving DecidableEq

/-- The two events of the dispatcher: admitting the next file (a send on
`sem`, enabled only while fewer than `limit` slots are held) and a task
finishing (its deferred receive on `sem` releases the slot). -/
inductive DispatchStep (limit : Nat) : DispatchState → DispatchState → Prop
  | start (s : DispatchState) (hp : 0 < s.pending) (hs : s.active < limit) :
      DispatchStep limit s ⟨s.pending - 1, s.active + 1, s.finished⟩
  | finish (s : DispatchState) (ha : 0 < s.active) :
      DispatchStep limit s ⟨s.pending, s.active - 1, s.finished + 1⟩

/-- States reachable while dispatching `n` files with concurrency `limit`,
from the initial state where nothing has been admitted. -/
inductive DispatchReachable (limit n : Nat) : DispatchState → Prop
  | init : DispatchReachable limit n ⟨n, 0, 0⟩
  | step {s t : DispatchState} : DispatchReachable limit n s →
      DispatchStep limit s t → DispatchReachable limit n t

/-! ## Directory trees and the archive codec

Relative paths are modelled as lists of path segments. A directory tree is a
named file (with content bytes, permission bits, modification time) or a named
directory with children; the children appear in the order `filepath.Walk`
visits them (lexical order of names — irrelevant here, since the round-trip
claim is about sets). -/

/-- A filesystem subtree. -/
inductive FsTree where
  | file (name : String) (content : List Nat) (mode : Nat) (modTime : Nat)
  | dir (name : String) (children : List FsTree)

/-- One tar entry as produced by `handleDirectoryDownload` (server.go:331-336):
relative path, payload bytes, mode, modification time. The payload length is
exactly the declared size, as tar guarantees. -/
structure ArchiveEntry where
  name : List String
  content : List Nat
  mode : Nat
  modTime : Nat
deriving DecidableEq

mutual

/-- The entries `filepath.Walk` emits for one subtree rooted below prefix
`pre` (server.go:314-351): a regular file becomes one header+payload entry
with its path relative to the walk root; a directory itself is skipped and
only its children are walked. -/
def walkEntries (pre : List String) : FsTree → List ArchiveEntry
  | .file n c m mt => [{ name := pre ++ [n], content := c, mode := m, modTime := mt }]
  | .dir n children => walkEntriesList (pre ++ [n]) children

/-- Walk a list of sibling subtrees in order. -/
def walkEntriesList (pre : List String) : List FsTree → List ArchiveEntry
  | [] => []
  | t :: ts => walkEntries pre t ++ walkEntriesList pre ts

end

/-- `encode`: the archive stream the server produces for a directory download
of `t` — the walk entries of `t`'s children, paths relative to `t` itself
(`filepath.Rel(fullPath, path)`), directories contributing no entries. A file
root yields its single entry. -/
def encode : FsTree → List ArchiveEntry
  | .dir _ children => walkEntriesList [] children
  | .file n c m mt => [{ name := [n], content := c, mode := m, modTime := mt }]

/-- A single valid path segment. -/
def validSegment (n : String) : Bool :=
  n ≠ "" && n ≠ "." && n ≠ ".." && !(n.toList.contains '/')

/-- The name of a tree's root node. -/
def nameOf : FsTree → String
  | .file n _ _ _ => n
  | .dir n _ => n

mutual

/-- Well-formedness of a tree as a real filesystem guarantees it: every name
is a single non-empty path segment (not `"."` or `".."`, no separator), and
the children of each directory have pairwise distinct names. -/
def wfTree : FsTree → Bool
  | .file n _ _ _ => validSegment n
  | .dir n children =>
    validSegment n && (children.map nameOf).Nodup && wfTreeList children

/-- Well-formedness of a list of sibling subtrees. -/
def wfTreeList : List FsTree → Bool
  | [] => true
  | t :: ts => wfTree t && wfTreeList ts

end

/-! ## Archive decode (`DownloadFolder`, client.go:229-294)

The tar stream is a list of items: a successfully parsed entry, or a read
error (a failed `tarReader.Next()` or a failed payload copy). The destination
filesystem is an association list from relative path to content in which the
most recent write shadows older ones (`os.Create` truncates). Whether the
environment makes `os.Chmod` / `os.Chtimes` fail for a given path is a
parameter; those failures are only logged as warnings. -/

/-- An item of the incoming tar stream. -/
inductive TarItem where
  | entry (e : ArchiveEntry)
  | readError (msg : String)
deriving DecidableEq

/-- The observable outcome of a folder download: files written (newest
first), the progress counters, the warnings logged, and the error that
aborted the decode, if any. -/
structure DecodeResult where
  files : List (List String × List Nat)
  processedFiles : Nat
  processedSize : Nat
  warnings : List String
  error : Option String
deriving DecidableEq

/-- The decode loop (client.go:240-290): a read error aborts with that error;
an entry is written to disk, its permission and modification-time restoration
failures are logged but not fatal, and the progress counters advance. -/
def decodeLoop (chmodFails chtimesFails : List String → Bool)
    (acc : DecodeResult) : List TarItem → DecodeResult
  | [] => acc
  | .readError e :: _ => { acc with error := some e }
  | .entry en :: rest =>
    let w₁ := if chmodFails en.name then acc.warnings ++ ["chmod failed"]
              else acc.warnings
    let w₂ := if chtimesFails en.name then w₁ ++ ["chtimes failed"] else w₁
    decodeLoop chmodFails chtimesFails
      { files := (en.name, en.content) :: acc.files,
        processedFiles := acc.processedFiles + 1,
        processedSize := acc.processedSize + en.content.length,
        warnings := w₂,
        error := acc.error } rest

/-- `decode`: run the decode loop on a stream from the empty destination. -/
def decode (chmodFails chtimesFails : List String → Bool)
    (stream : List TarItem) : DecodeResult :=
  decodeLoop chmodFails chtimesFails
    { files := [], processedFiles := 0, processedSize := 0,
      warnings := [], error := none } stream

/-! ## Client folder upload entry (`UploadFolder`, client.go:56-146) -/

/-- The enumeration stage and empty-directory check of `UploadFolder`
(client.go:60-71), followed by the dispatch of one task per file. The result
pairs the number of worker goroutines launched with the returned value; the
per-file transfer outcome is a parameter keyed by relative path, and the
aggregation over one completion order is `runTasks` (arbitrary orders are
covered by the `runTasks` theorems). -/
def uploadFolder (t : FsTree) (transferResult : List String → Option String) :
    Nat × Except String Agg :=
  let files := encode t
  if files.length = 0 then
    (0, .error "no files found in directory")
  else
    let order := files.map fun e =>
      match transferResult e.name with
      | some err => FileOutcome.fail err
      | none => FileOutcome.ok e.content.length
    let agg := runTasks order
    (files.length,
      match agg.uploadErr with
      | some e => .error e
      | none => .ok agg)

/-! ## Server upload processing and status registry (`server.go`) -/

/-- `TransferStatus` (server.go:23-35). `error = none` models the empty Go
string; `ended` models whether `EndTime` has been set. Progress is exact
rational arithmetic standing in for the `float64` quotient. -/
structure TransferStatus where
  id : String
  type : String
  status : String
  progress : ℚ
  totalFiles : Nat
  processedFiles : Nat
  totalSize : Nat
  processedSize : Nat
  error : Option String
  ended : Bool
deriving DecidableEq

/-- The record `handleUpload` creates before spawning `processUpload`
(server.go:132-137): status `"running"`, zero counters, no end time. -/
def initialStatus (id : String) : TransferStatus :=
  { id := id, type := "upload", status := "running", progress := 0,
    totalFiles := 0, processedFiles := 0, totalSize := 0, processedSize := 0,
    error := none, ended := false }

/-- One uploaded multipart file part: its size and whether
`processUploadedFile` fails on it (`none` = success). -/
structure UploadPart where
  size : Nat
  failure : Option String
deriving DecidableEq

/-- The loop of `processUpload` (server.go:171-183), iterating over the file
parts with index `i`: a failing part sets status `"failed"` with the error
and returns; a successful part adds the written bytes, sets the processed
count to `i+1` and the progress to `(i+1)/total`; after the loop the status
becomes `"completed"`. -/
def processLoop (total : Nat) (st : TransferStatus) (i : Nat) :
    List UploadPart → TransferStatus
  | [] => { st with status := "completed" }
  | p :: rest =>
    match p.failure with
    | some e => { st with status := "failed", error := some e }
    | none =>
      processLoop total
        { st with processedSize := st.processedSize + p.size,
                  processedFiles := i + 1,
                  progress := ((i : ℚ) + 1) / (total : ℚ) } (i + 1) rest

/-- `processUpload` (server.go:153-185): set the totals, run the loop, and —
via the deferred function — set the end time on every exit path. -/
def processUpload (st : TransferStatus) (parts : List UploadPart) :
    TransferStatus :=
  let st₁ := { st with totalFiles := parts.length,
                       totalSize := parts.foldl (fun a p => a + p.size) 0 }
  { processLoop parts.length st₁ 0 parts with ended := true }

/-- The successive values written to the `Status` field of one transfer
record over its lifetime: `"running"` at creation (server.go:135), then —
inside `processUpload`, the only code that ever writes the field again —
`"failed"` at the first failing part (after which the loop returns) or
`"completed"` after the last part. `handleStatus` only reads records. -/
def lifecycleWrites : List UploadPart → List String
  | [] => ["completed"]
  | p :: rest =>
    match p.failure with
    | some _ => ["failed"]
    | none => lifecycleWrites rest

/-- The full lifecycle trace of a transfer record's `Status` field. -/
def statusTrace (parts : List UploadPart) : List String :=
  "running" :: lifecycleWrites parts

/-- Terminal lifecycle states. -/
def isTerminal (s : String) : Bool :=
  s = "completed" || s = "failed"

/-! ## Semantic views of a tree (for the round-trip and empty-input claims) -/

mutual

/-- The (relative path, content) pairs of the regular files below prefix
`pre` — the semantic "set of relative file paths with byte contents" of a
subtree, defined directly on the tree. -/
def filesBelow (pre : List String) : FsTree → List (List String × List Nat)
  | .file n c _ _ => [(pre ++ [n], c)]
  | .dir n children => filesBelowList (pre ++ [n]) children

/-- Files below a list of sibling subtrees. -/
def filesBelowList (pre : List String) : List FsTree → List (List String × List Nat)
  | [] => []
  | t :: ts => filesBelow pre t ++ filesBelowList pre ts

end

/-- The files of a tree, paths relative to the tree's own root. -/
def treeFiles : FsTree → List (List String × List Nat)
  | .dir _ children => filesBelowList [] children
  | .file n c _ _ => [([n], c)]

mutual

/-- The number of regular files in a subtree. -/
def fileCount : FsTree → Nat
  | .file _ _ _ _ => 1
  | .dir _ children => fileCountList children

/-- The number of regular files in a list of sibling subtrees. -/
def fileCountList : List FsTree → Nat
  | [] => 0
  | t :: ts => fileCount t + fileCountList ts

end

/-! ## Theorems -/

/-- C5: the path sanitizer rejects `"../../etc/passwd"`, `"a/../../b"` and
`"a/b/../../.."` with an InvalidPath error, and maps `"a/./b"` to the clean
relative path `"a/b"`. -/
theorem sanitize_examples :
    sanitize "../../etc/passwd" = none ∧
    sanitize "a/../../b" = none ∧
    sanitize "a/b/../../.." = none ∧
    sanitize "a/./b" = some "a/b" := by
  decide

/-! ### Upload-path safety lemmas (C1) -/

/-- Splitting a separator-free character list yields one segment. -/
theorem splitSlash_noSlash (xs : List Char) (h : ∀ c ∈ xs, c ≠ '/') :
    splitSlash xs = [xs] := by
  induction xs with
  | nil => rfl
  | cons c cs ih =>
    have hc : c ≠ '/' := h c (List.mem_cons_self c cs)
    have ih' := ih fun d hd => h d (List.mem_cons_of_mem c hd)
    simp [splitSlash, hc, ih']

/-- Splitting at the separator that follows a separator-free run. -/
theorem splitSlash_append_slash (xs ys : List Char) (h : ∀ c ∈ xs, c ≠ '/') :
    splitSlash (xs ++ '/' :: ys) = xs :: splitSlash ys := by
  induction xs with
  | nil => simp [splitSlash]
  | cons c cs ih =>
    have hc : c ≠ '/' := h c (List.mem_cons_self c cs)
    have ih' := ih fun d hd => h d (List.mem_cons_of_mem c hd)
    simp [splitSlash, hc, ih']

/-- A character list is a prefix of any extension of itself. -/
theorem charPre_append (l x : List Char) : charPre l (l ++ x) = true := by
  induction l with
  | nil => rfl
  | cons a as ih => simp [charPre, ih]

/-- For a non-empty path, `filepath.Base` yields `"/"` or a non-empty,
separator-free last element. -/
theorem goBase_spec (w : String) (hw : w ≠ "") :
    goBase w = "/" ∨
    ((goBase w).toList ≠ [] ∧ ∀ c ∈ (goBase w).toList, c ≠ '/') := by
  unfold goBase
  rw [if_neg hw]
  by_cases hb : baseRev w.toList.reverse = []
  · rw [if_pos hb]
    exact Or.inl rfl
  · rw [if_neg hb]
    refine Or.inr ⟨?_, ?_⟩
    · show (baseRev w.toList.reverse).reverse ≠ []
      intro hcon
      exact hb (by simpa using congrArg List.reverse hcon)
    · intro c hc
      have hc' : c ∈ baseRev w.toList.reverse := by
        simpa using hc
      have hp := List.mem_takeWhile_imp hc'
      simpa using hp

/-- Joining a plain segment under the storage root appends it verbatim:
`Clean` leaves `"uploads/" ++ f` untouched for a non-empty, separator-free
`f` that is neither `"."` nor `".."`. -/
theorem goJoin_segment (f : String) (hne : f.toList ≠ [])
    (hslash : ∀ c ∈ f.toList, c ≠ '/') (hdot : f ≠ ".") (hdd : f ≠ "..") :
    goJoin "uploads" f = "uploads/" ++ f := by
  have hfe : f ≠ "" := fun h => hne (by rw [h]; rfl)
  have hdot' : f.toList ≠ ['.'] :=
    fun hcon => hdot (String.ext (hcon.trans (by decide)))
  have hdd' : f.toList ≠ ['.', '.'] :=
    fun hcon => hdd (String.ext (hcon.trans (by decide)))
  have hcs : ("uploads" ++ "/" ++ f).toList = "uploads".toList ++ '/' :: f.toList := by
    show ("uploads" ++ "/" ++ f).data = "uploads".data ++ '/' :: f.data
    rw [String.data_append, String.data_append]
    simp
  have hsegs' : splitSlash ("uploads".toList ++ '/' :: f.toList) =
      ["uploads".toList, f.toList] := by
    rw [splitSlash_append_slash _ _ (by decide), splitSlash_noSlash _ hslash]
  have hrhs : ("uploads/" ++ f) = String.mk ("uploads".toList ++ '/' :: f.toList) := by
    apply String.ext
    show "uploads/".data ++ f.data = "uploads".data ++ '/' :: f.data
    rfl
  have hgj : goJoin "uploads" f = goClean ("uploads" ++ "/" ++ f) := by
    simp [goJoin, hfe]
  rw [hgj, hrhs]
  simp only [goClean, hcs, hsegs']
  have hhead : ("uploads".toList ++ '/' :: f.toList).head? = some 'u' := rfl
  rw [hhead]
  simp only [List.foldl_cons, List.foldl_nil]
  have hne2 : f.data ≠ [] := hne
  have hdot2 : f.data ≠ ['.'] := hdot'
  have hdd2 : f.data ≠ ['.', '.'] := hdd'
  simp [cleanPush, joinSlash, hne2, hdot2, hdd2]

/-- C1: for every file part of an upload request, whatever filename parameter
the client sends on the wire: the destination path the server computes is
normalized and contains no parent-directory segment, and any regular file
actually created lies strictly under the storage root — `Part.FileName`'s
`filepath.Base` plus `Join`'s cleaning leave either a path under the root or
an existing directory (the root itself or the working directory), on which
`os.Create` fails without writing anything. -/
theorem upload_stays_in_storage_root (isDir : String → Bool) (w p : String)
    (hcwd : isDir "." = true) (hroot : isDir "uploads" = true)
    (hw : uploadWriteTarget isDir "uploads" w = some p) :
    charPre "uploads/".toList p.toList = true ∧ hasDotDotSegment p = false := by
  by_cases hempty : w = ""
  · rw [hempty] at hw
    simp [uploadWriteTarget, partFileName] at hw
  · have hw' : (if isDir (uploadDestPath "uploads" (goBase w)) then none
        else some (uploadDestPath "uploads" (goBase w))) = some p := by
      simpa [uploadWriteTarget, partFileName, hempty] using hw
    rcases goBase_spec w hempty with hslash | ⟨hne, hnos⟩
    · rw [hslash, show uploadDestPath "uploads" "/" = "uploads" from by decide]
        at hw'
      simp [hroot] at hw'
    · by_cases hdot : goBase w = "."
      · rw [hdot, show uploadDestPath "uploads" "." = "uploads" from by decide]
          at hw'
        simp [hroot] at hw'
      · by_cases hdd : goBase w = ".."
        · rw [hdd, show uploadDestPath "uploads" ".." = "." from by decide] at hw'
          simp [hcwd] at hw'
        · have hdd' : (goBase w).toList ≠ ['.', '.'] :=
            fun hcon => hdd (String.ext (hcon.trans (by decide)))
          have hj : uploadDestPath "uploads" (goBase w) = "uploads/" ++ goBase w :=
            goJoin_segment (goBase w) hne hnos hdot hdd
          rw [hj] at hw'
          rcases hdir : isDir ("uploads/" ++ goBase w) with _ | _
          · rw [hdir] at hw'
            simp only [Bool.false_eq_true, if_false, Option.some.injEq] at hw'
            have htl : p.toList = "uploads/".toList ++ (goBase w).toList := by
              rw [← hw']
              exact String.data_append "uploads/" (goBase w)
            have htl' : p.toList = "uploads".toList ++ '/' :: (goBase w).toList := by
              rw [htl]
              rfl
            constructor
            · rw [htl]
              exact charPre_append _ _
            · have hdd2 : (goBase w).data ≠ ['.', '.'] := hdd'
              rw [hasDotDotSegment, htl', splitSlash_append_slash _ _ (by decide),
                splitSlash_noSlash _ hnos]
              simp [hdd2]
          · rw [hdir] at hw'
            simp at hw'

/-- Witness for C1: the traversal filename `"../../etc/passwd"` is
normalized by `Part.FileName` to `"passwd"` and written at
`"uploads/passwd"`, inside the storage root. -/
theorem upload_stays_in_storage_root_witness :
    charPre "uploads/".toList "uploads/passwd".toList = true ∧
      hasDotDotSegment "uploads/passwd" = false :=
  upload_stays_in_storage_root
    (fun s => s = "." || s = "uploads") "../../etc/passwd" "uploads/passwd"
    (by decide) (by decide) (by decide)

/-- C10: an upload whose multipart form has zero file parts runs no loop
iterations and ends `"completed"` with zero total files, zero processed files
and progress `0`, with no error recorded — there is no EmptyInput rejection
on the server. -/
theorem processUpload_empty_form (id : String) :
    (processUpload (initialStatus id) []).status = "completed" ∧
    (processUpload (initialStatus id) []).totalFiles = 0 ∧
    (processUpload (initialStatus id) []).processedFiles = 0 ∧
    (processUpload (initialStatus id) []).progress = 0 ∧
    (processUpload (initialStatus id) []).error = none :=
  ⟨rfl, rfl, rfl, rfl, rfl⟩

/-- C7: `VerifyReader` with an expected hash whose algorithm tag differs from
the configured one returns the algorithm-mismatch error having read zero
bytes of the stream; a digest-value mismatch under a matching, supported
algorithm instead returns `(false, no error)` after consuming the whole
stream. -/
theorem verifyReader_algorithm_mismatch (md5sum sha256sum : List Nat → String)
    (h : Hasher) (stream : List Nat) (expectedHash : FileHash) :
    (expectedHash.algorithm ≠ h.hashType →
      verifyReader md5sum sha256sum h stream expectedHash =
        ((false, some ("hash algorithm mismatch: expected "
            ++ expectedHash.algorithm ++ ", got " ++ h.hashType)), 0)) ∧
    (expectedHash.algorithm = h.hashType → h.hashType = "sha256" →
      expectedHash.value ≠ sha256sum stream →
      verifyReader md5sum sha256sum h stream expectedHash =
        ((false, none), stream.length)) ∧
    (expectedHash.algorithm = h.hashType → h.hashType = "md5" →
      expectedHash.value ≠ md5sum stream →
      verifyReader md5sum sha256sum h stream expectedHash =
        ((false, none), stream.length)) := by
  refine ⟨fun hne => ?_, fun heq hsha hv => ?_, fun heq hmd hv => ?_⟩
  · simp [verifyReader, hne]
  · simp [verifyReader, hashReader, heq, hsha]
    exact fun he => hv he.symm
  · simp [verifyReader, hashReader, heq, hmd]
    exact fun he => hv he.symm

/-- Witness for C7 at a concrete mismatching input. -/
theorem verifyReader_algorithm_mismatch_witness :
    verifyReader (fun _ => "m") (fun _ => "s") { hashType := "sha256" }
        [1, 2, 3] { algorithm := "md5", value := "d" } =
      ((false, some "hash algorithm mismatch: expected md5, got sha256"), 0) :=
  ((verifyReader_algorithm_mismatch (fun _ => "m") (fun _ => "s")
      { hashType := "sha256" } [1, 2, 3]
      { algorithm := "md5", value := "d" }).1 (by decide)).trans (by decide)

/-- C2: in every reachable state of a dispatch of `n` files with concurrency
limit `K ≥ 1`, at most `K` tasks hold a semaphore slot — hence at most `K`
per-file transfer operations are ever active simultaneously. -/
theorem dispatch_concurrency_bounded (K n : Nat) (_hK : 1 ≤ K)
    (s : DispatchState) (hr : DispatchReachable K n s) : s.active ≤ K := by
  induction hr with
  | init => exact Nat.zero_le _
  | step _ hstep ih =>
    cases hstep with
    | start hp hs => exact hs
    | finish ha => exact le_trans (Nat.sub_le _ _) ih

/-- Witness for C2: a concrete reachable state of a 3-file dispatch with
limit 2, obtained by admitting one file from the initial state. -/
theorem dispatch_concurrency_bounded_witness :
    (⟨2, 1, 0⟩ : DispatchState).active ≤ 2 :=
  dispatch_concurrency_bounded 2 3 (by decide) ⟨2, 1, 0⟩
    (DispatchReachable.step DispatchReachable.init
      (DispatchStep.start ⟨3, 0, 0⟩ (by decide) (by decide)))

/-! ### Dispatcher aggregation lemmas (C3) -/

/-- The processed-file count after folding the critical sections adds one per
successful outcome. -/
theorem foldl_uploadTask_processedFiles (order : List FileOutcome) (a : Agg) :
    (order.foldl uploadTask a).processedFiles =
      a.processedFiles + order.countP (·.succeeded) := by
  induction order generalizing a with
  | nil => simp
  | cons o rest ih =>
    cases o with
    | ok size =>
      simp [uploadTask, ih, List.countP_cons, FileOutcome.succeeded]
      omega
    | fail e =>
      simp [uploadTask, ih, List.countP_cons, FileOutcome.succeeded]

/-- The error slot after folding the critical sections holds the value it
already had, or else the first failure in completion order. -/
theorem foldl_uploadTask_uploadErr (order : List FileOutcome) (a : Agg) :
    (order.foldl uploadTask a).uploadErr =
      (if a.uploadErr = none then firstFailure order else a.uploadErr) := by
  induction order generalizing a with
  | nil =>
    rcases ha : a.uploadErr with _ | e₀ <;> simp [firstFailure, ha]
  | cons o rest ih =>
    cases o with
    | ok size =>
      simp only [List.foldl_cons, uploadTask, firstFailure]
      rw [ih]
    | fail e =>
      simp only [List.foldl_cons, uploadTask, firstFailure]
      rw [ih]
      rcases ha : a.uploadErr with _ | e₀ <;> simp [ha]

/-- C3: whatever completion order the scheduler produces, if at least one
per-file transfer fails, the fold still runs every task's critical section:
the processed-file count equals the number of successful transfers — files
completing after the first failure included — and the call returns exactly
the first recorded error. -/
theorem uploadFolder_first_error_wins (order : List FileOutcome)
    (hfail : firstFailure order ≠ none) :
    (runTasks order).processedFiles = order.countP (·.succeeded) ∧
    (runTasks order).uploadErr = firstFailure order ∧
    (∀ pre e post, order = pre ++ FileOutcome.fail e :: post →
      (runTasks order).processedFiles =
        pre.countP (·.succeeded) + post.countP (·.succeeded)) := by
  refine ⟨?_, ?_, ?_⟩
  · have h := foldl_uploadTask_processedFiles order
      { processedFiles := 0, processedSize := 0, uploadErr := none }
    simpa [runTasks] using h
  · have h := foldl_uploadTask_uploadErr order
      { processedFiles := 0, processedSize := 0, uploadErr := none }
    simpa [runTasks] using h
  · intro pre e post hsplit
    have h := foldl_uploadTask_processedFiles order
      { processedFiles := 0, processedSize := 0, uploadErr := none }
    subst hsplit
    simp only [runTasks] at h ⊢
    rw [h, List.countP_append, List.countP_cons]
    simp [FileOutcome.succeeded]

/-- Witness for C3: two successes around a failure, in one completion
order. -/
theorem uploadFolder_first_error_wins_witness :
    (runTasks [FileOutcome.ok 5, FileOutcome.fail "boom", FileOutcome.ok 7]).processedFiles =
        [FileOutcome.ok 5, FileOutcome.fail "boom", FileOutcome.ok 7].countP (·.succeeded) ∧
      (runTasks [FileOutcome.ok 5, FileOutcome.fail "boom", FileOutcome.ok 7]).uploadErr =
        firstFailure [FileOutcome.ok 5, FileOutcome.fail "boom", FileOutcome.ok 7] ∧
      (∀ pre e post,
        [FileOutcome.ok 5, FileOutcome.fail "boom", FileOutcome.ok 7] =
            pre ++ FileOutcome.fail e :: post →
        (runTasks [FileOutcome.ok 5, FileOutcome.fail "boom", FileOutcome.ok 7]).processedFiles =
          pre.countP (·.succeeded) + post.countP (·.succeeded)) :=
  uploadFolder_first_error_wins
    [FileOutcome.ok 5, FileOutcome.fail "boom", FileOutcome.ok 7] (by decide)

/-! ### Transfer status lifecycle lemmas (C4) -/

/-- After creation, the `Status` field is written exactly once more:
`"completed"` when every part succeeds, `"failed"` otherwise. -/
theorem lifecycleWrites_eq (parts : List UploadPart) :
    lifecycleWrites parts =
      [if parts.all (fun p => p.failure.isNone) then "completed" else "failed"] := by
  induction parts with
  | nil => simp [lifecycleWrites]
  | cons p rest ih =>
    cases hf : p.failure with
    | none => simp [lifecycleWrites, hf, ih]
    | some e => simp [lifecycleWrites, hf]

/-- The final status computed by the `processUpload` loop agrees with the
last lifecycle write. -/
theorem processLoop_status (parts : List UploadPart) (total i : Nat)
    (st : TransferStatus) :
    (processLoop total st i parts).status =
      (if parts.all (fun p => p.failure.isNone) then "completed" else "failed") := by
  induction parts generalizing st i with
  | nil => simp [processLoop]
  | cons p rest ih =>
    cases hf : p.failure with
    | some e => simp [processLoop, hf]
    | none => simp [processLoop, hf, ih]

/-- C4: a transfer record's `Status` field starts `"running"`; its final
value — which is also what `processUpload` leaves in the record — is
`"completed"` exactly when every file part succeeds and `"failed"` as soon
as any part fails; and every value the field takes before its final one is
non-terminal, so once the field holds a terminal value it is never written
again. -/
theorem transferStatus_lifecycle (id : String) (parts : List UploadPart) :
    (statusTrace parts).head? = some "running" ∧
    (statusTrace parts).getLast? =
      some (if parts.all (fun p => p.failure.isNone) then "completed" else "failed") ∧
    (processUpload (initialStatus id) parts).status =
      (if parts.all (fun p => p.failure.isNone) then "completed" else "failed") ∧
    ((∃ p ∈ parts, p.failure ≠ none) →
      (statusTrace parts).getLast? = some "failed") ∧
    (∀ s ∈ (statusTrace parts).dropLast, isTerminal s = false) := by
  refine ⟨rfl, ?_, ?_, ?_, ?_⟩
  · simp [statusTrace, lifecycleWrites_eq]
  · simp [processUpload, processLoop_status]
  · rintro ⟨p, hmem, hne⟩
    have hall : parts.all (fun p => p.failure.isNone) = false := by
      rcases hb : parts.all (fun p => p.failure.isNone) with _ | _
      · rfl
      · have := List.all_eq_true.mp hb p hmem
        cases hp : p.failure with
        | none => exact absurd hp hne
        | some e => rw [hp] at this; simp at this
    simp [statusTrace, lifecycleWrites_eq, hall]
  · intro s hs
    rw [statusTrace, lifecycleWrites_eq] at hs
    simp at hs
    simp [hs, isTerminal]

/-- Witness for C4: a single failing part drives the record to
`"failed"`. -/
theorem transferStatus_lifecycle_witness :
    (statusTrace [{ size := 3, failure := some "disk full" }]).getLast? =
      some "failed" :=
  (transferStatus_lifecycle "t" [{ size := 3, failure := some "disk full" }]).2.2.2.1
    (by decide)

/-! ### Decode-loop lemmas (C9 and C6) -/

/-- Decoding a stream of well-formed entries never sets the error, whatever
the chmod/chtimes environment does. -/
theorem decodeLoop_entries_error (cf ctf : List String → Bool)
    (entries : List ArchiveEntry) (acc : DecodeResult) :
    (decodeLoop cf ctf acc (entries.map TarItem.entry)).error = acc.error := by
  induction entries generalizing acc with
  | nil => rfl
  | cons e rest ih => simp [decodeLoop, ih]

/-- Decoding a stream of well-formed entries counts every entry as
processed. -/
theorem decodeLoop_entries_processed (cf ctf : List String → Bool)
    (entries : List ArchiveEntry) (acc : DecodeResult) :
    (decodeLoop cf ctf acc (entries.map TarItem.entry)).processedFiles =
      acc.processedFiles + entries.length := by
  induction entries generalizing acc with
  | nil => simp [decodeLoop]
  | cons e rest ih =>
    simp [decodeLoop, ih]
    omega

/-- Decoding a stream of well-formed entries writes exactly those entries,
newest first. -/
theorem decodeLoop_entries_files (cf ctf : List String → Bool)
    (entries : List ArchiveEntry) (acc : DecodeResult) :
    (decodeLoop cf ctf acc (entries.map TarItem.entry)).files =
      (entries.map fun e => (e.name, e.content)).reverse ++ acc.files := by
  induction entries generalizing acc with
  | nil => simp [decodeLoop]
  | cons e rest ih => simp [decodeLoop, ih]

/-- A read error in the stream aborts the decode with that error. -/
theorem decodeLoop_readError_error (cf ctf : List String → Bool)
    (entries : List ArchiveEntry) (msg : String) (rest : List TarItem)
    (acc : DecodeResult) :
    (decodeLoop cf ctf acc
        (entries.map TarItem.entry ++ TarItem.readError msg :: rest)).error =
      some msg := by
  induction entries generalizing acc with
  | nil => rfl
  | cons e tail ih => simp [decodeLoop, ih]

/-- A read error stops the count at the entries decoded before it. -/
theorem decodeLoop_readError_processed (cf ctf : List String → Bool)
    (entries : List ArchiveEntry) (msg : String) (rest : List TarItem)
    (acc : DecodeResult) :
    (decodeLoop cf ctf acc
        (entries.map TarItem.entry ++ TarItem.readError msg :: rest)).processedFiles =
      acc.processedFiles + entries.length := by
  induction entries generalizing acc with
  | nil => simp [decodeLoop]
  | cons e tail ih =>
    simp [decodeLoop, ih]
    omega

/-- C9: whatever files the chmod/chtimes environment refuses to restore, a
decode of a pure entry stream returns no error and counts every entry as
processed — restoration failures are non-fatal and decoding continues — while
a header/payload read error anywhere in the stream aborts the whole decode
with exactly that error, the entries before it counted. -/
theorem decode_restore_failures_nonfatal (cf ctf : List String → Bool)
    (entries : List ArchiveEntry) (msg : String) (rest : List TarItem) :
    (decode cf ctf (entries.map TarItem.entry)).error = none ∧
    (decode cf ctf (entries.map TarItem.entry)).processedFiles = entries.length ∧
    (decode cf ctf
        (entries.map TarItem.entry ++ TarItem.readError msg :: rest)).error =
      some msg ∧
    (decode cf ctf
        (entries.map TarItem.entry ++ TarItem.readError msg :: rest)).processedFiles =
      entries.length := by
  refine ⟨?_, ?_, ?_, ?_⟩
  · exact decodeLoop_entries_error cf ctf entries _
  · have h := decodeLoop_entries_processed cf ctf entries
      { files := [], processedFiles := 0, processedSize := 0,
        warnings := [], error := none }
    simpa [decode] using h
  · exact decodeLoop_readError_error cf ctf entries msg rest _
  · have h := decodeLoop_readError_processed cf ctf entries msg rest
      { files := [], processedFiles := 0, processedSize := 0,
        warnings := [], error := none }
    simpa [decode] using h

/-! ### Walk lemmas (C6 and C8) -/

mutual

/-- The (path, content) projection of the walk entries is exactly the
semantic file set of the subtree. -/
theorem walkEntries_pairs (pre : List String) (t : FsTree) :
    (walkEntries pre t).map (fun e => (e.name, e.content)) = filesBelow pre t := by
  cases t with
  | file n c m mt => rfl
  | dir n children =>
    simpa [walkEntries, filesBelow] using walkEntriesList_pairs (pre ++ [n]) children

/-- Pair projection of the walk of sibling subtrees. -/
theorem walkEntriesList_pairs (pre : List String) (ts : List FsTree) :
    (walkEntriesList pre ts).map (fun e => (e.name, e.content)) =
      filesBelowList pre ts := by
  cases ts with
  | nil => rfl
  | cons t ts' =>
    simp [walkEntriesList, filesBelowList, walkEntries_pairs pre t,
      walkEntriesList_pairs pre ts']

end

mutual

/-- The walk emits exactly one entry per regular file, none per directory. -/
theorem walkEntries_length (pre : List String) (t : FsTree) :
    (walkEntries pre t).length = fileCount t := by
  cases t with
  | file n c m mt => rfl
  | dir n children =>
    simpa [walkEntries, fileCount] using walkEntriesList_length (pre ++ [n]) children

/-- Entry count of the walk of sibling subtrees. -/
theorem walkEntriesList_length (pre : List String) (ts : List FsTree) :
    (walkEntriesList pre ts).length = fileCountList ts := by
  cases ts with
  | nil => rfl
  | cons t ts' =>
    simp [walkEntriesList, fileCountList, walkEntries_length pre t,
      walkEntriesList_length pre ts']

end

/-- The server's archive stream for a tree holds one entry per regular file. -/
theorem encode_length (t : FsTree) : (encode t).length = fileCount t := by
  cases t with
  | file n c m mt => rfl
  | dir n children => simpa [encode, fileCount] using walkEntriesList_length [] children

mutual

/-- In a well-formed subtree, the walk produces pairwise distinct entry
paths, and every path extends the prefix with the subtree root's name. -/
theorem walkEntries_names (pre : List String) (t : FsTree) (h : wfTree t = true) :
    ((walkEntries pre t).map ArchiveEntry.name).Nodup ∧
    ∀ e ∈ walkEntries pre t, ∃ suf, e.name = pre ++ nameOf t :: suf := by
  cases t with
  | file n c m mt =>
    refine ⟨List.nodup_singleton _, ?_⟩
    intro e he
    simp only [walkEntries, List.mem_singleton] at he
    subst he
    exact ⟨[], rfl⟩
  | dir n children =>
    have h' := h
    simp only [wfTree, Bool.and_eq_true, decide_eq_true_eq] at h'
    obtain ⟨⟨hv, hnd⟩, hwl⟩ := h'
    obtain ⟨hnodup, hshape⟩ := walkEntriesList_names (pre ++ [n]) children hwl hnd
    refine ⟨hnodup, ?_⟩
    intro e he
    obtain ⟨t', ht', suf, hsuf⟩ := hshape e he
    exact ⟨nameOf t' :: suf, by simpa [List.append_assoc] using hsuf⟩

/-- Distinctness and shape of the walk of well-formed sibling subtrees with
pairwise distinct names. -/
theorem walkEntriesList_names (pre : List String) (ts : List FsTree)
    (h : wfTreeList ts = true) (hn : (ts.map nameOf).Nodup) :
    ((walkEntriesList pre ts).map ArchiveEntry.name).Nodup ∧
    ∀ e ∈ walkEntriesList pre ts, ∃ t ∈ ts, ∃ suf, e.name = pre ++ nameOf t :: suf := by
  cases ts with
  | nil =>
    refine ⟨List.nodup_nil, ?_⟩
    intro e he
    simp [walkEntriesList] at he
  | cons t ts' =>
    have h' := h
    simp only [wfTreeList, Bool.and_eq_true] at h'
    obtain ⟨hwt, hwts⟩ := h'
    have hn' := hn
    simp only [List.map_cons, List.nodup_cons] at hn'
    obtain ⟨hmem, hnd'⟩ := hn'
    obtain ⟨nodA, shapeA⟩ := walkEntries_names pre t hwt
    obtain ⟨nodB, shapeB⟩ := walkEntriesList_names pre ts' hwts hnd'
    constructor
    · rw [walkEntriesList, List.map_append]
      refine List.Nodup.append nodA nodB (List.disjoint_left.mpr ?_)
      intro x hxA hxB
      obtain ⟨eA, heA, hnameA⟩ := List.mem_map.mp hxA
      obtain ⟨eB, heB, hnameB⟩ := List.mem_map.mp hxB
      obtain ⟨sufA, hsA⟩ := shapeA eA heA
      obtain ⟨tB, htB, sufB, hsB⟩ := shapeB eB heB
      have heq : pre ++ nameOf t :: sufA = pre ++ nameOf tB :: sufB := by
        rw [← hsA, ← hsB, hnameA, hnameB]
      have hname : nameOf t = nameOf tB := by
        have htail := List.append_cancel_left heq
        exact (List.cons.inj htail).1
      exact hmem (hname ▸ List.mem_map_of_mem nameOf htB)
    · intro e he
      rw [walkEntriesList] at he
      rcases List.mem_append.mp he with hA | hB
      · obtain ⟨suf, hs⟩ := shapeA e hA
        exact ⟨t, List.mem_cons_self _ _, suf, hs⟩
      · obtain ⟨t', ht', suf, hs⟩ := shapeB e hB
        exact ⟨t', List.mem_cons_of_mem _ ht', suf, hs⟩

end

/-- C6: for every well-formed directory tree, decoding the server's encoded
archive stream into a fresh destination aborts with no error, processes one
file per regular file of the tree, and materializes exactly the tree's set of
relative file paths with byte-identical contents — paths pairwise distinct,
directory entries contributing nothing. -/
theorem archive_roundtrip (t : FsTree) (hwf : wfTree t = true) :
    (decode (fun _ => false) (fun _ => false) ((encode t).map TarItem.entry)).error =
      none ∧
    (decode (fun _ => false) (fun _ => false)
        ((encode t).map TarItem.entry)).processedFiles = fileCount t ∧
    (decode (fun _ => false) (fun _ => false)
        ((encode t).map TarItem.entry)).files.Perm (treeFiles t) ∧
    ((decode (fun _ => false) (fun _ => false)
        ((encode t).map TarItem.entry)).files.map Prod.fst).Nodup ∧
    (∀ pc, pc ∈ (decode (fun _ => false) (fun _ => false)
        ((encode t).map TarItem.entry)).files ↔ pc ∈ treeFiles t) := by
  have hfiles : (decode (fun _ => false) (fun _ => false)
      ((encode t).map TarItem.entry)).files =
      ((encode t).map fun e => (e.name, e.content)).reverse := by
    have h := decodeLoop_entries_files (fun _ => false) (fun _ => false) (encode t)
      { files := [], processedFiles := 0, processedSize := 0,
        warnings := [], error := none }
    simpa [decode] using h
  have hpairs : (encode t).map (fun e => (e.name, e.content)) = treeFiles t := by
    cases t with
    | file n c m mt => rfl
    | dir n children =>
      simpa [encode, treeFiles] using walkEntriesList_pairs [] children
  have hnodup : ((encode t).map ArchiveEntry.name).Nodup := by
    cases t with
    | file n c m mt => exact List.nodup_singleton _
    | dir n children =>
      have h' := hwf
      simp only [wfTree, Bool.and_eq_true, decide_eq_true_eq] at h'
      obtain ⟨⟨hv, hnd⟩, hwl⟩ := h'
      simpa [encode] using (walkEntriesList_names [] children hwl hnd).1
  refine ⟨?_, ?_, ?_, ?_, ?_⟩
  · exact decodeLoop_entries_error _ _ (encode t) _
  · have h := decodeLoop_entries_processed (fun _ => false) (fun _ => false) (encode t)
      { files := [], processedFiles := 0, processedSize := 0,
        warnings := [], error := none }
    simp only [decode] at h ⊢
    rw [h, encode_length, Nat.zero_add]
  · rw [hfiles, hpairs]
    exact List.reverse_perm _
  · rw [hfiles, List.map_reverse, List.nodup_reverse, List.map_map]
    exact hnodup
  · intro pc
    rw [hfiles, hpairs, List.mem_reverse]

/-- Witness for C6: the two-file example tree from the spec (§8), at the
nested file's relative path. -/
theorem archive_roundtrip_witness :
    (["sub", "img.bin"], [9, 8]) ∈ (decode (fun _ => false) (fun _ => false)
        ((encode (FsTree.dir "docs"
            [FsTree.file "readme.txt" [1, 2, 3] 420 7,
             FsTree.dir "sub" [FsTree.file "img.bin" [9, 8] 420 7]])).map
          TarItem.entry)).files ↔
      (["sub", "img.bin"], [9, 8]) ∈ treeFiles (FsTree.dir "docs"
            [FsTree.file "readme.txt" [1, 2, 3] 420 7,
             FsTree.dir "sub" [FsTree.file "img.bin" [9, 8] 420 7]]) :=
  (archive_roundtrip (FsTree.dir "docs"
      [FsTree.file "readme.txt" [1, 2, 3] 420 7,
       FsTree.dir "sub" [FsTree.file "img.bin" [9, 8] 420 7]]) (by decide)).2.2.2.2
    (["sub", "img.bin"], [9, 8])

/-- C8: uploading a source directory that contains zero regular files fails
with the empty-directory error, with zero worker tasks launched and no
per-file transfer attempted. -/
theorem uploadFolder_empty_dir (t : FsTree)
    (transferResult : List String → Option String) (h : fileCount t = 0) :
    uploadFolder t transferResult = (0, .error "no files found in directory") := by
  have hlen : (encode t).length = 0 := by rw [encode_length, h]
  simp [uploadFolder, hlen]

/-- Witness for C8: a directory holding only an empty subdirectory. -/
theorem uploadFolder_empty_dir_witness :
    uploadFolder (FsTree.dir "d" [FsTree.dir "sub" []]) (fun _ => none) =
      (0, .error "no files found in directory") :=
  uploadFolder_empty_dir (FsTree.dir "d" [FsTree.dir "sub" []]) (fun _ => none)
    (by decide)

end UploadHttp
